import Mathlib

/-!
Verification development for the notesd synchronization server.

The Go source is embedded shallowly: SQLite tables become lists of records,
timestamps (UTC milliseconds, int64 in the schema) become Int, SQL queries
become filters/sorts over those lists, and fallible store operations return
Except values (ErrNotFound / constraint violations). Handler-level validation
functions are translated directly from server/internal/api.
-/

namespace Notesd

/-- Note record, mirroring model.Note and the notes table
(id TEXT PRIMARY KEY, user_id, title, content, type, modified_at,
modified_by_device, deleted_at nullable, created_at). -/
structure Note where
  id : String
  userID : String
  title : String
  content : String
  type : String
  modifiedAt : Int
  modifiedByDevice : String
  deletedAt : Option Int
  createdAt : Int
deriving Repr, DecidableEq

/-- Todo record, mirroring model.Todo and the todos table. -/
structure Todo where
  id : String
  userID : String
  noteID : Option String
  lineRef : Option String
  content : String
  dueDate : Option Int
  completed : Bool
  modifiedAt : Int
  modifiedByDevice : String
  deletedAt : Option Int
  createdAt : Int
deriving Repr, DecidableEq

/-- Store-level errors: database.ErrNotFound and SQLite constraint violations. -/
inductive DBErr where
  | notFound
  | constraint
deriving Repr, DecidableEq

/-- WHERE id = ? AND user_id = ? -/
def noteKey (id u : String) (r : Note) : Bool :=
  r.id == id && r.userID == u

/-- WHERE id = ? AND user_id = ? AND deleted_at IS NULL -/
def noteVisibleKey (id u : String) (r : Note) : Bool :=
  r.id == id && r.userID == u && r.deletedAt.isNone

/-- DB.GetNote: visible lookup scoped to a user (none models ErrNotFound). -/
def getNote (db : List Note) (id u : String) : Option Note :=
  db.find? (noteVisibleKey id u)

/-- DB.GetNoteAny: lookup regardless of soft-delete state, used by sync. -/
def getNoteAny (db : List Note) (id u : String) : Option Note :=
  db.find? (noteKey id u)

/-- DB.CreateNote: INSERT; fails on the id PRIMARY KEY constraint. -/
def createNote (db : List Note) (n : Note) : Except DBErr (List Note) :=
  if db.any (fun r => r.id == n.id) then .error .constraint
  else .ok (db ++ [n])

/-- Ordering used by list/search queries: ORDER BY modified_at DESC. -/
def noteModDesc (a b : Note) : Prop := b.modifiedAt ≤ a.modifiedAt

/-- Ordering used by the changes-since query: ORDER BY modified_at ASC. -/
def noteModAsc (a b : Note) : Prop := a.modifiedAt ≤ b.modifiedAt

instance : DecidableRel noteModDesc := fun _ _ => Int.decLe _ _

instance : DecidableRel noteModAsc := fun _ _ => Int.decLe _ _

instance : IsTotal Note noteModDesc := ⟨fun _ _ => Int.le_total _ _⟩

instance : IsTotal Note noteModAsc := ⟨fun _ _ => Int.le_total _ _⟩

instance : IsTrans Note noteModDesc := ⟨fun _ _ _ h1 h2 => le_trans h2 h1⟩

instance : IsTrans Note noteModAsc := ⟨fun _ _ _ h1 h2 => le_trans h1 h2⟩

/-- Rows satisfying WHERE user_id = ? AND deleted_at IS NULL. -/
def visibleNotes (db : List Note) (u : String) : List Note :=
  db.filter (fun r => r.userID == u && r.deletedAt.isNone)

/-- DB.ListNotes: visible rows ordered by modified_at DESC with LIMIT/OFFSET,
paired with the total count of visible rows. -/
def listNotes (db : List Note) (u : String) (limit offset : Nat) :
    List Note × Nat :=
  (((List.insertionSort noteModDesc (visibleNotes db u)).drop offset).take limit,
   (visibleNotes db u).length)

/-- ASCII lower-casing as applied by SQLite's default LIKE comparison
(only U+0041..U+005A fold). -/
def toLowerAscii (c : Char) : Char :=
  if 'A' ≤ c ∧ c ≤ 'Z' then Char.ofNat (c.toNat + 32) else c

/-- All suffixes of a character list, the list itself included. -/
def suffixes : List Char → List (List Char)
  | [] => [[]]
  | c :: s => (c :: s) :: suffixes s

/-- SQLite LIKE matching with default case sensitivity: the percent sign
matches any sequence of zero or more characters (that is, the rest of the
pattern matches some suffix), the underscore matches exactly one character,
and other characters compare after ASCII case folding. -/
def likeChars : List Char → List Char → Bool
  | [], s => s.isEmpty
  | p :: ps, s =>
    if p = '%' then (suffixes s).any (fun t => likeChars ps t)
    else
      match s with
      | [] => false
      | c :: s' =>
        if p = '_' then likeChars ps s'
        else toLowerAscii p == toLowerAscii c && likeChars ps s'

/-- The pattern "%" + query + "%" built by DB.SearchNotes. -/
def likePattern (q : String) : List Char :=
  '%' :: (q.data ++ ['%'])

/-- Row condition of DB.SearchNotes:
user_id = ? AND deleted_at IS NULL AND (title LIKE ? OR content LIKE ?). -/
def noteMatchesSearch (u q : String) (r : Note) : Bool :=
  r.userID == u && r.deletedAt.isNone &&
    (likeChars (likePattern q) r.title.data || likeChars (likePattern q) r.content.data)

/-- All rows matched by the search query, before ordering and pagination. -/
def searchMatches (db : List Note) (u q : String) : List Note :=
  db.filter (noteMatchesSearch u q)

/-- DB.SearchNotes: matching rows ordered by modified_at DESC with
LIMIT/OFFSET, paired with the total match count. -/
def searchNotes (db : List Note) (u q : String) (limit offset : Nat) :
    List Note × Nat :=
  (((List.insertionSort noteModDesc (searchMatches db u q)).drop offset).take limit,
   (searchMatches db u q).length)

/-- Field assignment of the soft-delete UPDATE:
SET deleted_at = ?, modified_at = ?, modified_by_device = ? (same timestamp
bound to both deleted_at and modified_at). -/
def stampNoteDeleted (d : Int) (dev : String) (r : Note) : Note :=
  { r with deletedAt := some d, modifiedAt := d, modifiedByDevice := dev }

/-- DB.DeleteNote: soft delete of the visible row; ErrNotFound when no row
was affected (checkRowsAffected). -/
def deleteNote (db : List Note) (id u : String) (deletedAt : Int)
    (dev : String) : Except DBErr (List Note) :=
  if db.any (noteVisibleKey id u) then
    .ok (db.map (fun r =>
      if noteVisibleKey id u r then stampNoteDeleted deletedAt dev r else r))
  else .error .notFound

/-- DB.GetNoteChangesSince: WHERE user_id = ? AND modified_at > ?
ORDER BY modified_at ASC; soft-deleted rows are not excluded. -/
def getNoteChangesSince (db : List Note) (u : String) (sinceMs : Int) :
    List Note :=
  List.insertionSort noteModAsc
    (db.filter (fun r => r.userID == u && decide (sinceMs < r.modifiedAt)))

/-- Field assignment of the LWW overwrite UPDATE in DB.UpsertNote:
SET title, content, type, modified_at, modified_by_device, deleted_at
(id, user_id and created_at are not in the SET list). -/
def overwriteNote (n r : Note) : Note :=
  { r with title := n.title, content := n.content, type := n.type,
           modifiedAt := n.modifiedAt, modifiedByDevice := n.modifiedByDevice,
           deletedAt := n.deletedAt }

/-- DB.UpsertNote: insert when absent; when present, overwrite only if the
incoming modified_at is strictly newer (time.Time.After), otherwise return
the existing server copy as the conflict. -/
def upsertNote (db : List Note) (n : Note) :
    Except DBErr (List Note × Option Note) :=
  match getNoteAny db n.id n.userID with
  | none => (createNote db n).map (fun db' => (db', none))
  | some existing =>
    if existing.modifiedAt < n.modifiedAt then
      .ok (db.map (fun r => if noteKey n.id n.userID r then overwriteNote n r else r),
           none)
    else
      .ok (db, some existing)

/-- WHERE id = ? AND user_id = ? for todos. -/
def todoKey (id u : String) (r : Todo) : Bool :=
  r.id == id && r.userID == u

/-- WHERE id = ? AND user_id = ? AND deleted_at IS NULL for todos. -/
def todoVisibleKey (id u : String) (r : Todo) : Bool :=
  r.id == id && r.userID == u && r.deletedAt.isNone

/-- DB.GetTodo. -/
def getTodo (db : List Todo) (id u : String) : Option Todo :=
  db.find? (todoVisibleKey id u)

/-- DB.GetTodoAny. -/
def getTodoAny (db : List Todo) (id u : String) : Option Todo :=
  db.find? (todoKey id u)

/-- DB.CreateTodo: INSERT; fails on the id PRIMARY KEY constraint. -/
def createTodo (db : List Todo) (t : Todo) : Except DBErr (List Todo) :=
  if db.any (fun r => r.id == t.id) then .error .constraint
  else .ok (db ++ [t])

/-- ORDER BY modified_at DESC for todos. -/
def todoModDesc (a b : Todo) : Prop := b.modifiedAt ≤ a.modifiedAt

/-- ORDER BY modified_at ASC for todos. -/
def todoModAsc (a b : Todo) : Prop := a.modifiedAt ≤ b.modifiedAt

/-- ORDER BY due_date ASC for the overdue query (all selected rows have a
non-null due_date). -/
def todoDueAsc (a b : Todo) : Prop := a.dueDate.getD 0 ≤ b.dueDate.getD 0

instance : DecidableRel todoModDesc := fun _ _ => Int.decLe _ _

instance : DecidableRel todoModAsc := fun _ _ => Int.decLe _ _

instance : DecidableRel todoDueAsc := fun _ _ => Int.decLe _ _

instance : IsTotal Todo todoModDesc := ⟨fun _ _ => Int.le_total _ _⟩

instance : IsTotal Todo todoModAsc := ⟨fun _ _ => Int.le_total _ _⟩

instance : IsTotal Todo todoDueAsc := ⟨fun _ _ => Int.le_total _ _⟩

instance : IsTrans Todo todoModDesc := ⟨fun _ _ _ h1 h2 => le_trans h2 h1⟩

instance : IsTrans Todo todoModAsc := ⟨fun _ _ _ h1 h2 => le_trans h1 h2⟩

instance : IsTrans Todo todoDueAsc := ⟨fun _ _ _ h1 h2 => le_trans h1 h2⟩

/-- Rows satisfying WHERE user_id = ? AND deleted_at IS NULL for todos. -/
def visibleTodos (db : List Todo) (u : String) : List Todo :=
  db.filter (fun r => r.userID == u && r.deletedAt.isNone)

/-- DB.ListTodos. -/
def listTodos (db : List Todo) (u : String) (limit offset : Nat) :
    List Todo × Nat :=
  (((List.insertionSort todoModDesc (visibleTodos db u)).drop offset).take limit,
   (visibleTodos db u).length)

/-- Field assignment of the todo soft-delete UPDATE. -/
def stampTodoDeleted (d : Int) (dev : String) (r : Todo) : Todo :=
  { r with deletedAt := some d, modifiedAt := d, modifiedByDevice := dev }

/-- DB.DeleteTodo. -/
def deleteTodo (db : List Todo) (id u : String) (deletedAt : Int)
    (dev : String) : Except DBErr (List Todo) :=
  if db.any (todoVisibleKey id u) then
    .ok (db.map (fun r =>
      if todoVisibleKey id u r then stampTodoDeleted deletedAt dev r else r))
  else .error .notFound

/-- Row condition of DB.GetOverdueTodos: user_id = ? AND deleted_at IS NULL
AND completed = 0 AND due_date IS NOT NULL AND due_date < now. -/
def todoOverdue (u : String) (now : Int) (r : Todo) : Bool :=
  r.userID == u && r.deletedAt.isNone && !r.completed &&
    (match r.dueDate with
     | none => false
     | some dd => decide (dd < now))

/-- DB.GetOverdueTodos: ORDER BY due_date ASC, no pagination. -/
def getOverdueTodos (db : List Todo) (u : String) (now : Int) : List Todo :=
  List.insertionSort todoDueAsc (db.filter (todoOverdue u now))

/-- DB.GetTodoChangesSince. -/
def getTodoChangesSince (db : List Todo) (u : String) (sinceMs : Int) :
    List Todo :=
  List.insertionSort todoModAsc
    (db.filter (fun r => r.userID == u && decide (sinceMs < r.modifiedAt)))

/-- Field assignment of the LWW overwrite UPDATE in DB.UpsertTodo:
SET note_id, line_ref, content, due_date, completed, modified_at,
modified_by_device, deleted_at. -/
def overwriteTodo (t r : Todo) : Todo :=
  { r with noteID := t.noteID, lineRef := t.lineRef, content := t.content,
           dueDate := t.dueDate, completed := t.completed,
           modifiedAt := t.modifiedAt, modifiedByDevice := t.modifiedByDevice,
           deletedAt := t.deletedAt }

/-- DB.UpsertTodo. -/
def upsertTodo (db : List Todo) (t : Todo) :
    Except DBErr (List Todo × Option Todo) :=
  match getTodoAny db t.id t.userID with
  | none => (createTodo db t).map (fun db' => (db', none))
  | some existing =>
    if existing.modifiedAt < t.modifiedAt then
      .ok (db.map (fun r => if todoKey t.id t.userID r then overwriteTodo t r else r),
           none)
    else
      .ok (db, some existing)

/-! Request-boundary helpers from server/internal/api/api.go. -/

/-- Value of a nonempty all-digit character run, as read by strconv. -/
def digitsVal (l : List Char) : Nat :=
  l.foldl (fun n c => n * 10 + (c.toNat - 48)) 0

/-- Whether a character run is nonempty and all decimal digits. -/
def allDigits (l : List Char) : Bool :=
  !l.isEmpty && l.all (fun c => c.isDigit)

/-- strconv.Atoi: optional leading sign, then one or more digits; none models
a non-nil error (syntax error or a value outside the int64 range). -/
def atoi (s : String) : Option Int :=
  let split : Bool × List Char :=
    match s.data with
    | '+' :: rest => (false, rest)
    | '-' :: rest => (true, rest)
    | l => (false, l)
  if allDigits split.2 then
    let v : Int := if split.1 then -(digitsVal split.2 : Int) else (digitsVal split.2 : Int)
    if v < -9223372036854775808 ∨ 9223372036854775807 < v then none else some v
  else none

/-- queryInt: empty value, parse error, or a negative value falls back to the
default; a non-negative parsed value is used as-is. -/
def queryInt (s : String) (dflt : Int) : Int :=
  if s = "" then dflt
  else
    match atoi s with
    | none => dflt
    | some v => if v < 0 then dflt else v

/-- Effective limit computed by the list/search handlers:
queryInt(r, "limit", 50) followed by the clamp to 200. -/
def effectiveLimit (s : String) : Int :=
  let l := queryInt s 50
  if 200 < l then 200 else l

/-- Effective offset computed by the list/search handlers:
queryInt(r, "offset", 0), with no clamp. -/
def effectiveOffset (s : String) : Int :=
  queryInt s 0

/-- model.NoteListResponse: the pagination envelope echoed to the client. -/
structure NoteListResponse where
  notes : List Note
  total : Nat
  limit : Int
  offset : Int
deriving Repr

/-- handleListNotes: computes the effective limit/offset from the raw query
strings, runs DB.ListNotes, and echoes the effective values in the response. -/
def handleListNotes (db : List Note) (u : String) (limitStr offsetStr : String) :
    NoteListResponse :=
  let limit := effectiveLimit limitStr
  let offset := effectiveOffset offsetStr
  let res := listNotes db u limit.toNat offset.toNat
  { notes := res.1, total := res.2, limit := limit, offset := offset }

/-- Outcome of the note half of handleSyncPush: the database after the
processed records, the acceptance count, the conflict server copies, and
whether the loop aborted with an internal error. -/
structure NotePushState where
  db : List Note
  accepted : Nat
  conflicts : List Note
  failed : Bool
deriving Repr

/-- Loop body of handleSyncPush over req.Notes: each record's user_id is
forced to the authenticated user before DB.UpsertNote; a store error aborts
the remaining records. -/
def pushNotesGo (u : String) : List Note → NotePushState → NotePushState
  | [], st => st
  | n :: rest, st =>
    match upsertNote st.db { n with userID := u } with
    | .error _ => { st with failed := true }
    | .ok (db', none) =>
      pushNotesGo u rest { st with db := db', accepted := st.accepted + 1 }
    | .ok (db', some sv) =>
      pushNotesGo u rest { st with db := db', conflicts := st.conflicts ++ [sv] }

/-- Note half of handleSyncPush. -/
def handleSyncPushNotes (u : String) (incoming : List Note) (db : List Note) :
    NotePushState :=
  pushNotesGo u incoming { db := db, accepted := 0, conflicts := [], failed := false }

/-- Outcome of the todo half of handleSyncPush. -/
structure TodoPushState where
  db : List Todo
  accepted : Nat
  conflicts : List Todo
  failed : Bool
deriving Repr

/-- Loop body of handleSyncPush over req.Todos. -/
def pushTodosGo (u : String) : List Todo → TodoPushState → TodoPushState
  | [], st => st
  | t :: rest, st =>
    match upsertTodo st.db { t with userID := u } with
    | .error _ => { st with failed := true }
    | .ok (db', none) =>
      pushTodosGo u rest { st with db := db', accepted := st.accepted + 1 }
    | .ok (db', some sv) =>
      pushTodosGo u rest { st with db := db', conflicts := st.conflicts ++ [sv] }

/-- Todo half of handleSyncPush. -/
def handleSyncPushTodos (u : String) (incoming : List Todo) (db : List Todo) :
    TodoPushState :=
  pushTodosGo u incoming { db := db, accepted := 0, conflicts := [], failed := false }

/-! Registration validation from server/internal/api/auth.go. -/

/-- isValidEmail: strings.IndexByte finds the first at sign; it must not sit
at position 0 or be absent, and the remainder after it must be nonempty and
contain a dot. -/
def isValidEmail (email : String) : Bool :=
  match email.data.findIdx? (fun c => c == '@') with
  | none => false
  | some i =>
    if i < 1 then false
    else
      let domain := email.data.drop (i + 1)
      if domain.isEmpty then false else domain.contains '.'

/-- Go len(s): the UTF-8 byte length of a string. -/
def byteLen (s : String) : Nat :=
  s.data.foldl (fun n c => n + c.utf8Size) 0

/-- Password length failures in handleRegister. -/
inductive PasswordErr where
  | tooShort
  | tooLong
deriving Repr, DecidableEq

/-- Password length validation in handleRegister:
utf8.RuneCountInString(p) < 8 rejects, then len(p) > 72 rejects. -/
def passwordCheck (p : String) : Option PasswordErr :=
  if p.length < 8 then some .tooShort
  else if 72 < byteLen p then some .tooLong
  else none

/-! Refresh-token rotation from server/internal/api/auth.go and
server/internal/database/tokens.go. -/

/-- User record (model.User). -/
structure UserRec where
  id : String
  email : String
  passwordHash : String
  displayName : String
  createdAt : Int
deriving Repr, DecidableEq

/-- Refresh token record (model.RefreshToken / refresh_tokens table). -/
structure RefreshTokenRec where
  id : String
  userID : String
  deviceID : String
  tokenHash : String
  expiresAt : Int
  createdAt : Int
deriving Repr, DecidableEq

/-- Claims extracted by parseRefreshToken: sub, jti, device_id. -/
structure RefreshClaims where
  userID : String
  tokenID : String
  deviceID : String
deriving Repr, DecidableEq

/-- Cryptographic operations of the credential service, abstracted: SHA-256
hex hashing of the opaque token (database.HashToken) and RS256 JWT parsing
with signature/type/expiry verification (parseRefreshToken). Both are pure
functions of the token string. -/
structure AuthOps where
  hashToken : String → String
  parseRefreshToken : String → Option RefreshClaims

/-- DB.GetRefreshTokenByHash: WHERE token_hash = ?. -/
def getRefreshTokenByHash (db : List RefreshTokenRec) (h : String) :
    Option RefreshTokenRec :=
  db.find? (fun r => r.tokenHash == h)

/-- DB.DeleteRefreshToken: DELETE WHERE id = ?. -/
def deleteRefreshToken (db : List RefreshTokenRec) (id : String) :
    List RefreshTokenRec :=
  db.filter (fun r => !(r.id == id))

/-- DB.GetUserByID. -/
def getUserByID (users : List UserRec) (id : String) : Option UserRec :=
  users.find? (fun u => u.id == id)

/-- DB.CreateRefreshToken: INSERT; fails on the id PRIMARY KEY constraint. -/
def createRefreshToken (db : List RefreshTokenRec) (rt : RefreshTokenRec) :
    Except DBErr (List RefreshTokenRec) :=
  if db.any (fun r => r.id == rt.id) then .error .constraint
  else .ok (db ++ [rt])

/-- HTTP outcome of handleRefresh. -/
inductive RefreshResult where
  | badRequest
  | unauthorized
  | internalError
  | ok (newRefreshToken newTokenID : String)
deriving Repr, DecidableEq

/-- handleRefresh: reject an empty token, parse the JWT, look the record up
by hash, check jti/sub against the claims, delete the presented record by id,
load the user, and store a token record for the freshly issued pair. The
fresh jti and the fresh opaque refresh token produced inside issueTokenPair
are passed in explicitly (they are random in the source). Returns the HTTP
outcome together with the refresh-token table after the call. -/
def handleRefresh (ops : AuthOps) (users : List UserRec)
    (db : List RefreshTokenRec) (tok : String) (freshID freshToken : String)
    (now expiry : Int) : RefreshResult × List RefreshTokenRec :=
  if tok = "" then (.badRequest, db)
  else
    match ops.parseRefreshToken tok with
    | none => (.unauthorized, db)
    | some claims =>
      match getRefreshTokenByHash db (ops.hashToken tok) with
      | none => (.unauthorized, db)
      | some stored =>
        if stored.id ≠ claims.tokenID ∨ stored.userID ≠ claims.userID then
          (.unauthorized, db)
        else
          let db1 := deleteRefreshToken db stored.id
          match getUserByID users claims.userID with
          | none => (.unauthorized, db1)
          | some user =>
            match createRefreshToken db1
                { id := freshID, userID := user.id, deviceID := claims.deviceID,
                  tokenHash := ops.hashToken freshToken,
                  expiresAt := now + expiry, createdAt := now } with
            | .error _ => (.internalError, db1)
            | .ok db2 => (.ok freshToken freshID, db2)

/-! Specification-side definitions, used only to compare the code's search
semantics against the spec's words ("case-sensitive substring match on title
or content"). -/

/-- Whether the first list is a leading segment of the second
(character-exact). -/
def startsWithChars : List Char → List Char → Bool
  | [], _ => true
  | _ :: _, [] => false
  | a :: as, b :: bs => a == b && startsWithChars as bs

/-- Case-sensitive substring test on character lists (spec semantics). -/
def csSubstr : List Char → List Char → Bool
  | q, [] => startsWithChars q []
  | q, c :: s' => startsWithChars q (c :: s') || csSubstr q s'

/-- Case-insensitive (ASCII) substring test: the substring relation that the
code's LIKE query actually implements for wildcard-free queries. -/
def ciSubstr (q s : List Char) : Bool :=
  csSubstr (q.map toLowerAscii) (s.map toLowerAscii)

/-! Concrete instantiations used by witnesses. -/

/-- Concrete crypto operations for witnesses: an injective (identity) token
hash and a parse function recognizing one token. -/
def exAuthOps : AuthOps :=
  { hashToken := fun s => s,
    parseRefreshToken := fun s =>
      if s = "tokR1" then some { userID := "u1", tokenID := "t1", deviceID := "d1" }
      else none }

/-- Concrete user table for witnesses. -/
def exUsers : List UserRec :=
  [{ id := "u1", email := "a@b.co", passwordHash := "h", displayName := "A",
     createdAt := 0 }]

/-- Concrete refresh-token table for witnesses: one live token whose (identity)
hash is the token string itself. -/
def exTokens : List RefreshTokenRec :=
  [{ id := "t1", userID := "u1", deviceID := "d1", tokenHash := "tokR1",
     expiresAt := 100, createdAt := 0 }]

/-- Concrete visible note owned by user u1, used by witnesses. -/
def exNote1 : Note :=
  { id := "n1", userID := "u1", title := "T", content := "C", type := "note",
    modifiedAt := 10, modifiedByDevice := "d1", deletedAt := none, createdAt := 5 }

/-- Concrete incoming sync record for the same note: strictly newer
modified_at and a client-supplied created_at that disagrees with the server. -/
def exNoteIncoming : Note :=
  { id := "n1", userID := "u1", title := "Client Wins", content := "C2",
    type := "note", modifiedAt := 20, modifiedByDevice := "d2",
    deletedAt := none, createdAt := 999 }

/-- Concrete visible todo owned by user u1, used by witnesses. -/
def exTodo1 : Todo :=
  { id := "td1", userID := "u1", noteID := none, lineRef := none,
    content := "buy milk", dueDate := some 50, completed := false,
    modifiedAt := 10, modifiedByDevice := "d1", deletedAt := none, createdAt := 5 }

/-- Concrete incoming sync record for the same todo, strictly newer. -/
def exTodoIncoming : Todo :=
  { id := "td1", userID := "u1", noteID := some "n1", lineRef := some "3",
    content := "buy oat milk", dueDate := some 60, completed := true,
    modifiedAt := 20, modifiedByDevice := "d2", deletedAt := none, createdAt := 999 }

/-- Concrete note with an upper-case title, used by the search
counterexample. -/
def exNoteUpper : Note :=
  { id := "n2", userID := "u1", title := "ABC", content := "", type := "note",
    modifiedAt := 10, modifiedByDevice := "d1", deletedAt := none, createdAt := 5 }

/-! Helper lemmas. -/

/-- find? commutes with a map whose function preserves the predicate. -/
theorem find?_map_pred {α : Type} {f : α → α} {p : α → Bool}
    (hf : ∀ r, p (f r) = p r) (l : List α) :
    (l.map f).find? p = (l.find? p).map f := by
  induction l with
  | nil => rfl
  | cons a l ih =>
    simp only [List.map_cons, List.find?]
    rw [hf a]
    cases p a <;> simp [ih]

/-- A list containing two different elements has more than one element. -/
theorem one_lt_length_of_two_mem {α : Type} {a b : α} {l : List α}
    (ha : a ∈ l) (hb : b ∈ l) (hab : a ≠ b) : 1 < l.length := by
  match l with
  | [] => cases ha
  | [x] =>
    rw [List.mem_singleton] at ha hb
    exact absurd (ha.trans hb.symm) hab
  | x :: y :: rest => simp [List.length_cons]

/-- Overwriting a note's mutable fields does not change its key columns. -/
theorem noteKey_overwrite (n r : Note) (id u : String) :
    noteKey id u (overwriteNote n r) = noteKey id u r := rfl

/-- Overwriting a todo's mutable fields does not change its key columns. -/
theorem todoKey_overwrite (t r : Todo) (id u : String) :
    todoKey id u (overwriteTodo t r) = todoKey id u r := rfl

/-- The conditional overwrite applied by the upsert UPDATE preserves the
note key predicate. -/
theorem noteKey_upsert_map (n : Note) (r : Note) :
    noteKey n.id n.userID (if noteKey n.id n.userID r then overwriteNote n r else r)
      = noteKey n.id n.userID r := by
  by_cases h : noteKey n.id n.userID r
  · simp only [h, if_true]
    exact h
  · rw [Bool.not_eq_true] at h
    simp [h]

/-- The conditional overwrite applied by the upsert UPDATE preserves the
todo key predicate. -/
theorem todoKey_upsert_map (t : Todo) (r : Todo) :
    todoKey t.id t.userID (if todoKey t.id t.userID r then overwriteTodo t r else r)
      = todoKey t.id t.userID r := by
  by_cases h : todoKey t.id t.userID r
  · simp only [h, if_true]
    exact h
  · rw [Bool.not_eq_true] at h
    simp [h]

/-- Accepted branch of DB.UpsertNote: a strictly newer incoming note yields
an overwrite of the stored row and no conflict. -/
theorem upsertNote_accept {db : List Note} {n e : Note}
    (hget : getNoteAny db n.id n.userID = some e)
    (hlt : e.modifiedAt < n.modifiedAt) :
    upsertNote db n =
      .ok (db.map (fun r => if noteKey n.id n.userID r then overwriteNote n r else r),
           none) ∧
    getNoteAny
        (db.map (fun r => if noteKey n.id n.userID r then overwriteNote n r else r))
        n.id n.userID = some (overwriteNote n e) := by
  refine ⟨?_, ?_⟩
  · simp only [upsertNote, hget, hlt, if_true]
  · unfold getNoteAny at hget ⊢
    rw [find?_map_pred (noteKey_upsert_map n) db, hget]
    have hpe : noteKey n.id n.userID e = true := List.find?_some hget
    simp [hpe]

/-- Accepted branch of DB.UpsertTodo. -/
theorem upsertTodo_accept {db : List Todo} {t e : Todo}
    (hget : getTodoAny db t.id t.userID = some e)
    (hlt : e.modifiedAt < t.modifiedAt) :
    upsertTodo db t =
      .ok (db.map (fun r => if todoKey t.id t.userID r then overwriteTodo t r else r),
           none) ∧
    getTodoAny
        (db.map (fun r => if todoKey t.id t.userID r then overwriteTodo t r else r))
        t.id t.userID = some (overwriteTodo t e) := by
  refine ⟨?_, ?_⟩
  · simp only [upsertTodo, hget, hlt, if_true]
  · unfold getTodoAny at hget ⊢
    rw [find?_map_pred (todoKey_upsert_map t) db, hget]
    have hpe : todoKey t.id t.userID e = true := List.find?_some hget
    simp [hpe]

/-- C1: a push-upsert of a note or todo against an existing record with the
same id and user overwrites all mutable fields (including deleted_at) and is
accepted (no conflict) when the incoming modified_at is strictly greater;
when it is equal or less the store is returned unchanged and the existing
server copy is reported as the conflict. -/
theorem C1_push_upsert_lww :
    (∀ (db : List Note) (n e : Note),
      getNoteAny db n.id n.userID = some e →
        ((e.modifiedAt < n.modifiedAt →
          ∃ db' m, upsertNote db n = .ok (db', none) ∧
            getNoteAny db' n.id n.userID = some m ∧
            m.title = n.title ∧ m.content = n.content ∧ m.type = n.type ∧
            m.modifiedAt = n.modifiedAt ∧ m.modifiedByDevice = n.modifiedByDevice ∧
            m.deletedAt = n.deletedAt) ∧
         (¬ e.modifiedAt < n.modifiedAt →
          upsertNote db n = .ok (db, some e)))) ∧
    (∀ (db : List Todo) (t e : Todo),
      getTodoAny db t.id t.userID = some e →
        ((e.modifiedAt < t.modifiedAt →
          ∃ db' m, upsertTodo db t = .ok (db', none) ∧
            getTodoAny db' t.id t.userID = some m ∧
            m.noteID = t.noteID ∧ m.lineRef = t.lineRef ∧ m.content = t.content ∧
            m.dueDate = t.dueDate ∧ m.completed = t.completed ∧
            m.modifiedAt = t.modifiedAt ∧ m.modifiedByDevice = t.modifiedByDevice ∧
            m.deletedAt = t.deletedAt) ∧
         (¬ e.modifiedAt < t.modifiedAt →
          upsertTodo db t = .ok (db, some e)))) := by
  refine ⟨fun db n e hget => ⟨fun hlt => ?_, fun hge => ?_⟩,
          fun db t e hget => ⟨fun hlt => ?_, fun hge => ?_⟩⟩
  · obtain ⟨h1, h2⟩ := upsertNote_accept hget hlt
    exact ⟨_, overwriteNote n e, h1, h2, rfl, rfl, rfl, rfl, rfl, rfl⟩
  · simp only [upsertNote, hget, hge, if_false]
  · obtain ⟨h1, h2⟩ := upsertTodo_accept hget hlt
    exact ⟨_, overwriteTodo t e, h1, h2, rfl, rfl, rfl, rfl, rfl, rfl, rfl, rfl⟩
  · simp only [upsertTodo, hget, hge, if_false]

/-- C1 witness: pushing a strictly newer version of a stored note is accepted
and the fetched row carries the incoming mutable fields. -/
theorem C1_witness :
    ∃ db' m, upsertNote [exNote1] exNoteIncoming = .ok (db', none) ∧
      getNoteAny db' exNoteIncoming.id exNoteIncoming.userID = some m ∧
      m.title = exNoteIncoming.title ∧ m.content = exNoteIncoming.content ∧
      m.type = exNoteIncoming.type ∧ m.modifiedAt = exNoteIncoming.modifiedAt ∧
      m.modifiedByDevice = exNoteIncoming.modifiedByDevice ∧
      m.deletedAt = exNoteIncoming.deletedAt :=
  (C1_push_upsert_lww.1 [exNote1] exNoteIncoming exNote1 (by decide)).1 (by decide)

/-- C10: an accepted overwrite leaves id, user_id, and created_at exactly as
stored on the server; a differing client-supplied created_at is ignored. -/
theorem C10_upsert_preserves_immutable_fields :
    (∀ (db : List Note) (n e : Note),
      getNoteAny db n.id n.userID = some e → e.modifiedAt < n.modifiedAt →
        ∃ db' m, upsertNote db n = .ok (db', none) ∧
          getNoteAny db' n.id n.userID = some m ∧
          m.id = e.id ∧ m.userID = e.userID ∧ m.createdAt = e.createdAt) ∧
    (∀ (db : List Todo) (t e : Todo),
      getTodoAny db t.id t.userID = some e → e.modifiedAt < t.modifiedAt →
        ∃ db' m, upsertTodo db t = .ok (db', none) ∧
          getTodoAny db' t.id t.userID = some m ∧
          m.id = e.id ∧ m.userID = e.userID ∧ m.createdAt = e.createdAt) := by
  refine ⟨fun db n e hget hlt => ?_, fun db t e hget hlt => ?_⟩
  · obtain ⟨h1, h2⟩ := upsertNote_accept hget hlt
    exact ⟨_, overwriteNote n e, h1, h2, rfl, rfl, rfl⟩
  · obtain ⟨h1, h2⟩ := upsertTodo_accept hget hlt
    exact ⟨_, overwriteTodo t e, h1, h2, rfl, rfl, rfl⟩

/-- C10 witness: the incoming record carries created_at 999 but the stored
row keeps the server's created_at 5 after the accepted overwrite. -/
theorem C10_witness :
    ∃ db' m, upsertTodo [exTodo1] exTodoIncoming = .ok (db', none) ∧
      getTodoAny db' exTodoIncoming.id exTodoIncoming.userID = some m ∧
      m.id = exTodo1.id ∧ m.userID = exTodo1.userID ∧ m.createdAt = exTodo1.createdAt :=
  C10_upsert_preserves_immutable_fields.2 [exTodo1] exTodoIncoming exTodo1
    (by decide) (by decide)

/-- Membership in the notes changes-since result. -/
theorem mem_getNoteChangesSince {db : List Note} {u : String} {t : Int} {n : Note} :
    n ∈ getNoteChangesSince db u t ↔ n ∈ db ∧ n.userID = u ∧ t < n.modifiedAt := by
  unfold getNoteChangesSince
  rw [(List.perm_insertionSort noteModAsc _).mem_iff, List.mem_filter]
  simp [Bool.and_eq_true, beq_iff_eq, decide_eq_true_eq]

/-- Membership in the todos changes-since result. -/
theorem mem_getTodoChangesSince {db : List Todo} {u : String} {t : Int} {r : Todo} :
    r ∈ getTodoChangesSince db u t ↔ r ∈ db ∧ r.userID = u ∧ t < r.modifiedAt := by
  unfold getTodoChangesSince
  rw [(List.perm_insertionSort todoModAsc _).mem_iff, List.mem_filter]
  simp [Bool.and_eq_true, beq_iff_eq, decide_eq_true_eq]

/-- C2: the changes-since queries return exactly the scoping user's records
with modified_at strictly greater than the cursor (never equal), soft-deleted
records included, ordered by modified_at ascending. -/
theorem C2_changes_since_strict :
    ∀ (ndb : List Note) (tdb : List Todo) (u : String) (t : Int),
      ((∀ n, n ∈ getNoteChangesSince ndb u t ↔
          n ∈ ndb ∧ n.userID = u ∧ t < n.modifiedAt) ∧
       (∀ n, n ∈ getNoteChangesSince ndb u t → n.modifiedAt ≠ t) ∧
       List.Sorted noteModAsc (getNoteChangesSince ndb u t)) ∧
      ((∀ r, r ∈ getTodoChangesSince tdb u t ↔
          r ∈ tdb ∧ r.userID = u ∧ t < r.modifiedAt) ∧
       (∀ r, r ∈ getTodoChangesSince tdb u t → r.modifiedAt ≠ t) ∧
       List.Sorted todoModAsc (getTodoChangesSince tdb u t)) := by
  intro ndb tdb u t
  refine ⟨⟨fun n => mem_getNoteChangesSince, fun n hn => ?_, ?_⟩,
          ⟨fun r => mem_getTodoChangesSince, fun r hr => ?_, ?_⟩⟩
  · have := (mem_getNoteChangesSince.1 hn).2.2
    omega
  · exact List.sorted_insertionSort noteModAsc _
  · have := (mem_getTodoChangesSince.1 hr).2.2
    omega
  · exact List.sorted_insertionSort todoModAsc _

/-- C2 witness: a record modified at 10 is returned for cursor 5 and its
timestamp is not the cursor value. -/
theorem C2_witness :
    exNote1 ∈ getNoteChangesSince [exNote1] "u1" 5 ∧ exNote1.modifiedAt ≠ 5 := by
  have h := C2_changes_since_strict [exNote1] [exTodo1] "u1" 5
  have hm := (h.1.1 exNote1).mpr ⟨by decide, by decide, by decide⟩
  exact ⟨hm, h.1.2.1 exNote1 hm⟩

/-- Any row in the database produced by an upsert either was already stored
or carries the incoming record's user id. -/
theorem upsertNote_mem_userID {db db' : List Note} {n : Note} {c : Option Note}
    (h : upsertNote db n = .ok (db', c)) :
    ∀ r ∈ db', r ∈ db ∨ r.userID = n.userID := by
  intro r hr
  cases hget : getNoteAny db n.id n.userID with
  | none =>
    simp only [upsertNote, hget] at h
    unfold createNote at h
    by_cases hany : db.any (fun r => r.id == n.id) = true
    · rw [if_pos hany] at h
      exact absurd h (by simp [Except.map])
    · rw [if_neg hany] at h
      simp only [Except.map, Except.ok.injEq, Prod.mk.injEq] at h
      rw [← h.1] at hr
      rcases List.mem_append.1 hr with hl | hs
      · exact Or.inl hl
      · rw [List.mem_singleton.1 hs]
        exact Or.inr rfl
  | some e =>
    simp only [upsertNote, hget] at h
    by_cases hlt : e.modifiedAt < n.modifiedAt
    · rw [if_pos hlt] at h
      simp only [Except.ok.injEq, Prod.mk.injEq] at h
      rw [← h.1] at hr
      obtain ⟨r0, hr0, hfr0⟩ := List.mem_map.1 hr
      by_cases hk : noteKey n.id n.userID r0 = true
      · right
        rw [← hfr0]
        simp only [hk, if_true]
        have : r0.userID = n.userID := by
          unfold noteKey at hk
          simp [Bool.and_eq_true, beq_iff_eq] at hk
          exact hk.2
        exact this
      · left
        rw [Bool.not_eq_true] at hk
        rw [← hfr0]
        simp only [hk]
        simpa using hr0
    · rw [if_neg hlt] at h
      simp only [Except.ok.injEq, Prod.mk.injEq] at h
      rw [← h.1] at hr
      exact Or.inl hr

/-- Todo analog of upsertNote_mem_userID. -/
theorem upsertTodo_mem_userID {db db' : List Todo} {t0 : Todo} {c : Option Todo}
    (h : upsertTodo db t0 = .ok (db', c)) :
    ∀ r ∈ db', r ∈ db ∨ r.userID = t0.userID := by
  intro r hr
  cases hget : getTodoAny db t0.id t0.userID with
  | none =>
    simp only [upsertTodo, hget] at h
    unfold createTodo at h
    by_cases hany : db.any (fun r => r.id == t0.id) = true
    · rw [if_pos hany] at h
      exact absurd h (by simp [Except.map])
    · rw [if_neg hany] at h
      simp only [Except.map, Except.ok.injEq, Prod.mk.injEq] at h
      rw [← h.1] at hr
      rcases List.mem_append.1 hr with hl | hs
      · exact Or.inl hl
      · rw [List.mem_singleton.1 hs]
        exact Or.inr rfl
  | some e =>
    simp only [upsertTodo, hget] at h
    by_cases hlt : e.modifiedAt < t0.modifiedAt
    · rw [if_pos hlt] at h
      simp only [Except.ok.injEq, Prod.mk.injEq] at h
      rw [← h.1] at hr
      obtain ⟨r0, hr0, hfr0⟩ := List.mem_map.1 hr
      by_cases hk : todoKey t0.id t0.userID r0 = true
      · right
        rw [← hfr0]
        simp only [hk, if_true]
        have : r0.userID = t0.userID := by
          unfold todoKey at hk
          simp [Bool.and_eq_true, beq_iff_eq] at hk
          exact hk.2
        exact this
      · left
        rw [Bool.not_eq_true] at hk
        rw [← hfr0]
        simp only [hk]
        simpa using hr0
    · rw [if_neg hlt] at h
      simp only [Except.ok.injEq, Prod.mk.injEq] at h
      rw [← h.1] at hr
      exact Or.inl hr

/-- The push loop over notes only ever stores rows that were already present
or carry the authenticated user's id. -/
theorem pushNotesGo_mem (u : String) :
    ∀ (incoming : List Note) (st : NotePushState) (r : Note),
      r ∈ (pushNotesGo u incoming st).db → r ∈ st.db ∨ r.userID = u := by
  intro incoming
  induction incoming with
  | nil => exact fun st r hr => Or.inl hr
  | cons n rest ih =>
    intro st r hr
    unfold pushNotesGo at hr
    cases hup : upsertNote st.db { n with userID := u } with
    | error e =>
      rw [hup] at hr
      exact Or.inl hr
    | ok res =>
      obtain ⟨db', c⟩ := res
      rw [hup] at hr
      cases c with
      | none =>
        rcases ih _ r hr with hmem | hu
        · rcases upsertNote_mem_userID hup r hmem with h' | h'
          · exact Or.inl h'
          · exact Or.inr h'
        · exact Or.inr hu
      | some sv =>
        rcases ih _ r hr with hmem | hu
        · rcases upsertNote_mem_userID hup r hmem with h' | h'
          · exact Or.inl h'
          · exact Or.inr h'
        · exact Or.inr hu

/-- The push loop over todos only ever stores rows that were already present
or carry the authenticated user's id. -/
theorem pushTodosGo_mem (u : String) :
    ∀ (incoming : List Todo) (st : TodoPushState) (r : Todo),
      r ∈ (pushTodosGo u incoming st).db → r ∈ st.db ∨ r.userID = u := by
  intro incoming
  induction incoming with
  | nil => exact fun st r hr => Or.inl hr
  | cons t0 rest ih =>
    intro st r hr
    unfold pushTodosGo at hr
    cases hup : upsertTodo st.db { t0 with userID := u } with
    | error e =>
      rw [hup] at hr
      exact Or.inl hr
    | ok res =>
      obtain ⟨db', c⟩ := res
      rw [hup] at hr
      cases c with
      | none =>
        rcases ih _ r hr with hmem | hu
        · rcases upsertTodo_mem_userID hup r hmem with h' | h'
          · exact Or.inl h'
          · exact Or.inr h'
        · exact Or.inr hu
      | some sv =>
        rcases ih _ r hr with hmem | hu
        · rcases upsertTodo_mem_userID hup r hmem with h' | h'
          · exact Or.inl h'
          · exact Or.inr h'
        · exact Or.inr hu

/-- C3: every read path returns only records scoped to the requesting user —
a foreign user's record is never returned by get, list, search, overdue, or
changes-since — and every record persisted through sync push either predates
the push or carries the authenticated user's id, regardless of the user_id
in the request body. -/
theorem C3_tenant_isolation :
    (∀ (db : List Note) (id u : String) (r : Note),
      getNote db id u = some r → r.userID = u) ∧
    (∀ (db : List Note) (n : Note) (u' : String),
      n ∈ db → n.userID ≠ u' → getNote db n.id u' ≠ some n) ∧
    (∀ (db : List Note) (u : String) (limit offset : Nat) (n : Note),
      n ∈ (listNotes db u limit offset).1 → n.userID = u) ∧
    (∀ (db : List Note) (u q : String) (limit offset : Nat) (n : Note),
      n ∈ (searchNotes db u q limit offset).1 → n.userID = u) ∧
    (∀ (db : List Note) (u : String) (t : Int) (n : Note),
      n ∈ getNoteChangesSince db u t → n.userID = u) ∧
    (∀ (u : String) (incoming db : List Note) (r : Note),
      r ∈ (handleSyncPushNotes u incoming db).db → r ∈ db ∨ r.userID = u) ∧
    (∀ (db : List Todo) (id u : String) (r : Todo),
      getTodo db id u = some r → r.userID = u) ∧
    (∀ (db : List Todo) (x : Todo) (u' : String),
      x ∈ db → x.userID ≠ u' → getTodo db x.id u' ≠ some x) ∧
    (∀ (db : List Todo) (u : String) (limit offset : Nat) (x : Todo),
      x ∈ (listTodos db u limit offset).1 → x.userID = u) ∧
    (∀ (db : List Todo) (u : String) (now : Int) (x : Todo),
      x ∈ getOverdueTodos db u now → x.userID = u) ∧
    (∀ (db : List Todo) (u : String) (t : Int) (x : Todo),
      x ∈ getTodoChangesSince db u t → x.userID = u) ∧
    (∀ (u : String) (incoming db : List Todo) (r : Todo),
      r ∈ (handleSyncPushTodos u incoming db).db → r ∈ db ∨ r.userID = u) := by
  have hgetN : ∀ (db : List Note) (id u : String) (r : Note),
      getNote db id u = some r → r.userID = u := by
    intro db id u r h
    have hp := List.find?_some h
    unfold noteVisibleKey at hp
    simp only [Bool.and_eq_true, beq_iff_eq] at hp
    exact hp.1.2
  have hgetT : ∀ (db : List Todo) (id u : String) (r : Todo),
      getTodo db id u = some r → r.userID = u := by
    intro db id u r h
    have hp := List.find?_some h
    unfold todoVisibleKey at hp
    simp only [Bool.and_eq_true, beq_iff_eq] at hp
    exact hp.1.2
  have hsortN : ∀ (l : List Note) (limit offset : Nat) (n : Note),
      n ∈ ((List.insertionSort noteModDesc l).drop offset).take limit → n ∈ l := by
    intro l limit offset n hn
    exact ((List.perm_insertionSort noteModDesc l).mem_iff).1
      (List.mem_of_mem_drop (List.mem_of_mem_take hn))
  have hsortT : ∀ (l : List Todo) (limit offset : Nat) (x : Todo),
      x ∈ ((List.insertionSort todoModDesc l).drop offset).take limit → x ∈ l := by
    intro l limit offset x hx
    exact ((List.perm_insertionSort todoModDesc l).mem_iff).1
      (List.mem_of_mem_drop (List.mem_of_mem_take hx))
  refine ⟨hgetN, ?_, ?_, ?_, ?_, ?_, hgetT, ?_, ?_, ?_, ?_, ?_⟩
  · intro db n u' _ hne h
    exact hne (hgetN db n.id u' n h)
  · intro db u limit offset n hn
    have hm := hsortN _ _ _ _ hn
    have hp := (List.mem_filter.1 hm).2
    simp only [Bool.and_eq_true, beq_iff_eq] at hp
    exact hp.1
  · intro db u q limit offset n hn
    have hm := hsortN _ _ _ _ hn
    have hp := (List.mem_filter.1 hm).2
    unfold noteMatchesSearch at hp
    simp only [Bool.and_eq_true, beq_iff_eq] at hp
    exact hp.1.1
  · intro db u t n hn
    exact (mem_getNoteChangesSince.1 hn).2.1
  · intro u incoming db r hr
    exact pushNotesGo_mem u incoming _ r hr
  · intro db x u' _ hne h
    exact hne (hgetT db x.id u' x h)
  · intro db u limit offset x hx
    have hm := hsortT _ _ _ _ hx
    have hp := (List.mem_filter.1 hm).2
    simp only [Bool.and_eq_true, beq_iff_eq] at hp
    exact hp.1
  · intro db u now x hx
    have hm := ((List.perm_insertionSort todoDueAsc _).mem_iff).1 hx
    have hp := (List.mem_filter.1 hm).2
    unfold todoOverdue at hp
    simp only [Bool.and_eq_true, beq_iff_eq] at hp
    exact hp.1.1.1
  · intro db u t x hx
    exact (mem_getTodoChangesSince.1 hx).2.1
  · intro u incoming db r hr
    exact pushTodosGo_mem u incoming _ r hr

/-- C3 witness: a note owned by user u1 is not returned when user u2 asks
for its id. -/
theorem C3_witness :
    getNote [exNote1] exNote1.id "u2" ≠ some exNote1 :=
  C3_tenant_isolation.2.1 [exNote1] exNote1 "u2" (by decide) (by decide)


/-- C5: soft-deleting a visible note or todo stamps deleted_at and
modified_at with the same deletion timestamp; afterwards get, list, and
search treat the record as absent, while changes-since with any cursor below
the deletion timestamp still returns the tombstoned record with deleted_at
set. -/
theorem C5_soft_delete
    (ndb : List Note) (e : Note) (tdb : List Todo) (et : Todo)
    (d : Int) (dev : String)
    (he : e ∈ ndb) (hvis : e.deletedAt = none)
    (het : et ∈ tdb) (hvist : et.deletedAt = none) :
    (∃ ndb', deleteNote ndb e.id e.userID d dev = .ok ndb' ∧
       stampNoteDeleted d dev e ∈ ndb' ∧
       (stampNoteDeleted d dev e).deletedAt = some d ∧
       (stampNoteDeleted d dev e).modifiedAt = d ∧
       getNote ndb' e.id e.userID = none ∧
       (∀ limit offset, stampNoteDeleted d dev e ∉ (listNotes ndb' e.userID limit offset).1) ∧
       (∀ q limit offset, stampNoteDeleted d dev e ∉ (searchNotes ndb' e.userID q limit offset).1) ∧
       (∀ t, t < d → stampNoteDeleted d dev e ∈ getNoteChangesSince ndb' e.userID t)) ∧
    (∃ tdb', deleteTodo tdb et.id et.userID d dev = .ok tdb' ∧
       stampTodoDeleted d dev et ∈ tdb' ∧
       (stampTodoDeleted d dev et).deletedAt = some d ∧
       (stampTodoDeleted d dev et).modifiedAt = d ∧
       getTodo tdb' et.id et.userID = none ∧
       (∀ limit offset, stampTodoDeleted d dev et ∉ (listTodos tdb' et.userID limit offset).1) ∧
       (∀ t, t < d → stampTodoDeleted d dev et ∈ getTodoChangesSince tdb' et.userID t)) := by
  constructor
  · have hkey : noteVisibleKey e.id e.userID e = true := by
      unfold noteVisibleKey
      simp [hvis]
    have hany : ndb.any (noteVisibleKey e.id e.userID) = true :=
      List.any_eq_true.2 ⟨e, he, hkey⟩
    refine ⟨ndb.map (fun r =>
        if noteVisibleKey e.id e.userID r then stampNoteDeleted d dev r else r),
      ?_, ?_, rfl, rfl, ?_, ?_, ?_, ?_⟩
    · unfold deleteNote
      rw [if_pos hany]
    · have hfe : (if noteVisibleKey e.id e.userID e then stampNoteDeleted d dev e else e)
          = stampNoteDeleted d dev e := by simp [hkey]
      rw [← hfe]
      exact List.mem_map_of_mem _ he
    · unfold getNote
      rw [List.find?_eq_none]
      intro x hx
      obtain ⟨r0, hr0, hfr0⟩ := List.mem_map.1 hx
      by_cases hk : noteVisibleKey e.id e.userID r0 = true
      · rw [← hfr0]
        simp only [hk, if_true]
        unfold noteVisibleKey stampNoteDeleted
        simp
      · rw [Bool.not_eq_true] at hk
        rw [← hfr0]
        simp only [hk, Bool.false_eq_true, if_false]
        exact not_false
    · intro limit offset hmem
      have hin := ((List.perm_insertionSort noteModDesc _).mem_iff).1
        (List.mem_of_mem_drop (List.mem_of_mem_take hmem))
      have hp := (List.mem_filter.1 hin).2
      simp [stampNoteDeleted] at hp
    · intro q limit offset hmem
      have hin := ((List.perm_insertionSort noteModDesc _).mem_iff).1
        (List.mem_of_mem_drop (List.mem_of_mem_take hmem))
      have hp := (List.mem_filter.1 hin).2
      unfold noteMatchesSearch at hp
      simp [stampNoteDeleted] at hp
    · intro t ht
      refine mem_getNoteChangesSince.2 ⟨?_, rfl, ht⟩
      have hfe : (if noteVisibleKey e.id e.userID e then stampNoteDeleted d dev e else e)
          = stampNoteDeleted d dev e := by simp [hkey]
      rw [← hfe]
      exact List.mem_map_of_mem _ he
  · have hkey : todoVisibleKey et.id et.userID et = true := by
      unfold todoVisibleKey
      simp [hvist]
    have hany : tdb.any (todoVisibleKey et.id et.userID) = true :=
      List.any_eq_true.2 ⟨et, het, hkey⟩
    refine ⟨tdb.map (fun r =>
        if todoVisibleKey et.id et.userID r then stampTodoDeleted d dev r else r),
      ?_, ?_, rfl, rfl, ?_, ?_, ?_⟩
    · unfold deleteTodo
      rw [if_pos hany]
    · have hfe : (if todoVisibleKey et.id et.userID et then stampTodoDeleted d dev et else et)
          = stampTodoDeleted d dev et := by simp [hkey]
      rw [← hfe]
      exact List.mem_map_of_mem _ het
    · unfold getTodo
      rw [List.find?_eq_none]
      intro x hx
      obtain ⟨r0, hr0, hfr0⟩ := List.mem_map.1 hx
      by_cases hk : todoVisibleKey et.id et.userID r0 = true
      · rw [← hfr0]
        simp only [hk, if_true]
        unfold todoVisibleKey stampTodoDeleted
        simp
      · rw [Bool.not_eq_true] at hk
        rw [← hfr0]
        simp only [hk, Bool.false_eq_true, if_false]
        exact not_false
    · intro limit offset hmem
      have hin := ((List.perm_insertionSort todoModDesc _).mem_iff).1
        (List.mem_of_mem_drop (List.mem_of_mem_take hmem))
      have hp := (List.mem_filter.1 hin).2
      simp [stampTodoDeleted] at hp
    · intro t ht
      refine mem_getTodoChangesSince.2 ⟨?_, rfl, ht⟩
      have hfe : (if todoVisibleKey et.id et.userID et then stampTodoDeleted d dev et else et)
          = stampTodoDeleted d dev et := by simp [hkey]
      rw [← hfe]
      exact List.mem_map_of_mem _ het

/-- C5 witness: deleting the concrete visible note and todo at timestamp 20
yields a tombstone returned by sync but hidden from get/list/search. -/
theorem C5_witness :
    (∃ ndb', deleteNote [exNote1] exNote1.id exNote1.userID 20 "d2" = .ok ndb' ∧
       stampNoteDeleted 20 "d2" exNote1 ∈ ndb' ∧
       (stampNoteDeleted 20 "d2" exNote1).deletedAt = some 20 ∧
       (stampNoteDeleted 20 "d2" exNote1).modifiedAt = 20 ∧
       getNote ndb' exNote1.id exNote1.userID = none ∧
       (∀ limit offset,
          stampNoteDeleted 20 "d2" exNote1 ∉ (listNotes ndb' exNote1.userID limit offset).1) ∧
       (∀ q limit offset,
          stampNoteDeleted 20 "d2" exNote1 ∉ (searchNotes ndb' exNote1.userID q limit offset).1) ∧
       (∀ t, t < 20 →
          stampNoteDeleted 20 "d2" exNote1 ∈ getNoteChangesSince ndb' exNote1.userID t)) ∧
    (∃ tdb', deleteTodo [exTodo1] exTodo1.id exTodo1.userID 20 "d2" = .ok tdb' ∧
       stampTodoDeleted 20 "d2" exTodo1 ∈ tdb' ∧
       (stampTodoDeleted 20 "d2" exTodo1).deletedAt = some 20 ∧
       (stampTodoDeleted 20 "d2" exTodo1).modifiedAt = 20 ∧
       getTodo tdb' exTodo1.id exTodo1.userID = none ∧
       (∀ limit offset,
          stampTodoDeleted 20 "d2" exTodo1 ∉ (listTodos tdb' exTodo1.userID limit offset).1) ∧
       (∀ t, t < 20 →
          stampTodoDeleted 20 "d2" exTodo1 ∈ getTodoChangesSince tdb' exTodo1.userID t)) :=
  C5_soft_delete [exNote1] exNote1 [exTodo1] exTodo1 20 "d2"
    (by decide) (by decide) (by decide) (by decide)

/-- C4: a successful refresh deletes the presented token record by id and
stores a record for a freshly issued pair with a fresh jti; presenting the
same old refresh token again afterwards fails with unauthorized because the
hash lookup no longer finds it. The hypotheses state that at most one stored
record carries the presented token's hash and that the fresh opaque token
hashes differently (SHA-256 collision freedom). -/
theorem C4_refresh_single_use
    (ops : AuthOps) (users : List UserRec) (db : List RefreshTokenRec)
    (tok freshID freshToken : String) (now expiry : Int)
    (db' : List RefreshTokenRec)
    (huniq : (db.filter (fun r => r.tokenHash == ops.hashToken tok)).length ≤ 1)
    (hfresh : ops.hashToken freshToken ≠ ops.hashToken tok)
    (hrun : handleRefresh ops users db tok freshID freshToken now expiry =
      (.ok freshToken freshID, db')) :
    (∃ claims stored,
       ops.parseRefreshToken tok = some claims ∧
       getRefreshTokenByHash db (ops.hashToken tok) = some stored ∧
       stored.id = claims.tokenID ∧ stored.userID = claims.userID ∧
       db' = deleteRefreshToken db stored.id ++
         [{ id := freshID, userID := stored.userID, deviceID := claims.deviceID,
            tokenHash := ops.hashToken freshToken,
            expiresAt := now + expiry, createdAt := now }]) ∧
    (∀ (freshID2 freshToken2 : String) (now2 expiry2 : Int),
       (handleRefresh ops users db' tok freshID2 freshToken2 now2 expiry2).1 =
         .unauthorized) := by
  by_cases htok : tok = ""
  · unfold handleRefresh at hrun
    rw [if_pos htok] at hrun
    simp at hrun
  unfold handleRefresh at hrun
  rw [if_neg htok] at hrun
  cases hparse : ops.parseRefreshToken tok with
  | none => simp [hparse] at hrun
  | some claims =>
  rw [hparse] at hrun
  dsimp only at hrun
  cases hlook : getRefreshTokenByHash db (ops.hashToken tok) with
  | none => simp [hlook] at hrun
  | some stored =>
  rw [hlook] at hrun
  dsimp only at hrun
  by_cases hcond : stored.id ≠ claims.tokenID ∨ stored.userID ≠ claims.userID
  · rw [if_pos hcond] at hrun
    simp at hrun
  rw [if_neg hcond] at hrun
  push_neg at hcond
  obtain ⟨hid, huid⟩ := hcond
  cases huser : getUserByID users claims.userID with
  | none => simp [huser] at hrun
  | some user =>
  rw [huser] at hrun
  dsimp only at hrun
  have huserid : user.id = claims.userID := by
    have := List.find?_some huser
    simpa [beq_iff_eq] using this
  cases hcreate : createRefreshToken (deleteRefreshToken db stored.id)
      { id := freshID, userID := user.id, deviceID := claims.deviceID,
        tokenHash := ops.hashToken freshToken,
        expiresAt := now + expiry, createdAt := now } with
  | error err => simp [hcreate] at hrun
  | ok db2 =>
  rw [hcreate] at hrun
  dsimp only at hrun
  simp only [Prod.mk.injEq] at hrun
  have hdb' : db' = db2 := hrun.2.symm
  have hdb2 : db2 = deleteRefreshToken db stored.id ++
      [{ id := freshID, userID := user.id, deviceID := claims.deviceID,
         tokenHash := ops.hashToken freshToken,
         expiresAt := now + expiry, createdAt := now }] := by
    unfold createRefreshToken at hcreate
    by_cases hany : (deleteRefreshToken db stored.id).any
        (fun r => r.id == freshID) = true
    · rw [if_pos hany] at hcreate
      cases hcreate
    · rw [if_neg hany] at hcreate
      cases hcreate
      rfl
  have hdbform : db' = deleteRefreshToken db stored.id ++
      [{ id := freshID, userID := stored.userID, deviceID := claims.deviceID,
         tokenHash := ops.hashToken freshToken,
         expiresAt := now + expiry, createdAt := now }] := by
    rw [hdb', hdb2, huserid, huid]
  refine ⟨⟨claims, stored, rfl, rfl, hid, huid, hdbform⟩, ?_⟩
  intro freshID2 freshToken2 now2 expiry2
  have hnone : getRefreshTokenByHash db' (ops.hashToken tok) = none := by
    unfold getRefreshTokenByHash
    rw [List.find?_eq_none]
    intro r hr
    rw [hdbform] at hr
    rcases List.mem_append.1 hr with hr1 | hr2
    · have hrdb : r ∈ db := (List.mem_filter.1 hr1).1
      have hrid : (!(r.id == stored.id)) = true := (List.mem_filter.1 hr1).2
      intro hcon
      have hlook' : List.find? (fun r => r.tokenHash == ops.hashToken tok) db =
          some stored := hlook
      have hstored_mem : stored ∈ db := List.mem_of_find?_eq_some hlook'
      have hstored_hash := List.find?_some hlook'
      have hrne : r ≠ stored := by
        intro he
        rw [he] at hrid
        simp at hrid
      have h1 : r ∈ db.filter (fun r => r.tokenHash == ops.hashToken tok) :=
        List.mem_filter.2 ⟨hrdb, hcon⟩
      have h2 : stored ∈ db.filter (fun r => r.tokenHash == ops.hashToken tok) :=
        List.mem_filter.2 ⟨hstored_mem, hstored_hash⟩
      have := one_lt_length_of_two_mem h1 h2 hrne
      omega
    · rw [List.mem_singleton.1 hr2]
      intro hcon
      simp only [beq_iff_eq] at hcon
      exact hfresh hcon
  unfold handleRefresh
  rw [if_neg htok, hparse]
  dsimp only
  rw [hnone]

/-- C4 witness: refreshing with tokR1 rotates the table to hold only the
fresh record, and presenting tokR1 again is rejected as unauthorized. -/
theorem C4_witness :
    (handleRefresh exAuthOps exUsers
        [{ id := "t2", userID := "u1", deviceID := "d1", tokenHash := "tokR2",
           expiresAt := 110, createdAt := 100 }]
        "tokR1" "t3" "tokR3" 200 10).1 = .unauthorized := by
  have h := C4_refresh_single_use exAuthOps exUsers exTokens "tokR1" "t2" "tokR2"
      100 10
      [{ id := "t2", userID := "u1", deviceID := "d1", tokenHash := "tokR2",
         expiresAt := 110, createdAt := 100 }]
      (by decide) (by decide) (by decide)
  exact h.2 "t3" "tokR3" 200 10

/-- C7: the email validator accepts an address containing two at signs,
because it only inspects the position of the first one; the function's own
documentation and the specification require exactly one. -/
theorem C7_email_multiple_at :
    isValidEmail "a@b@c.d" = true ∧
    ("a@b@c.d".data.filter (fun c => c == '@')).length = 2 := by decide

/-- Each character occupies at least one UTF-8 byte, so the rune count never
exceeds the byte length. -/
theorem length_le_byteLen (s : String) : s.length ≤ byteLen s := by
  have h : ∀ (l : List Char) (n : Nat),
      n + l.length ≤ l.foldl (fun n c => n + c.utf8Size) n := by
    intro l
    induction l with
    | nil => intro n; simp
    | cons c l ih =>
      intro n
      have h1 := ih (n + c.utf8Size)
      have h2 := Char.utf8Size_pos c
      simp only [List.foldl_cons, List.length_cons]
      omega
  have h0 := h s.data 0
  simp only [Nat.zero_add] at h0
  exact h0

/-- C8 (amended): the minimum is checked in code points and the maximum in
bytes: a password passes the length validation iff its rune count is at least
8 and its byte length is at most 72; in particular anything under 8 bytes or
over 72 bytes is rejected, but an 8-byte password of fewer than 8 runes is
rejected too. -/
theorem C8_password_length (p : String) :
    (byteLen p < 8 → passwordCheck p ≠ none) ∧
    (72 < byteLen p → passwordCheck p ≠ none) ∧
    (passwordCheck p = none ↔ 8 ≤ p.length ∧ byteLen p ≤ 72) := by
  have hlb := length_le_byteLen p
  unfold passwordCheck
  refine ⟨?_, ?_, ?_⟩
  · intro hb
    have hl : p.length < 8 := by omega
    simp [hl]
  · intro hb
    by_cases hl : p.length < 8
    · simp [hl]
    · simp [hl, hb]
  · by_cases hl : p.length < 8
    · simp only [hl, if_true]
      constructor
      · intro hc
        cases hc
      · intro hc
        omega
    · by_cases hb : 72 < byteLen p
      · simp only [hl, if_false, hb, if_true]
        constructor
        · intro hc
          cases hc
        · intro hc
          omega
      · simp only [hl, if_false, hb, if_true]
        constructor
        · intro _
          omega
        · intro _
          trivial

/-- C8 counterexample: a four-rune password of exactly 8 UTF-8 bytes is
rejected as too short even though its byte length is within 8..72. -/
theorem C8_counterexample :
    byteLen "éééé" = 8 ∧ passwordCheck "éééé" = some PasswordErr.tooShort := by
  decide

/-- C8 witness: a 3-byte password is rejected. -/
theorem C8_witness : passwordCheck "abc" ≠ none :=
  (C8_password_length "abc").1 (by decide)

/-- queryInt never returns a negative value when its default is
non-negative. -/
theorem queryInt_nonneg (s : String) (dflt : Int) (hd : 0 ≤ dflt) :
    0 ≤ queryInt s dflt := by
  unfold queryInt
  by_cases hs : s = ""
  · simp [hs, hd]
  · cases hat : atoi s with
    | none => simp [hs, hat, hd]
    | some v =>
      by_cases hv : v < 0
      · simp [hs, hat, hv, hd]
      · simp [hs, hat, hv]
        omega

/-- C9 (amended): the effective limit lies in 0..200 (not 1..200: an explicit
limit of 0 is used as-is): values above 200 are clamped to 200, negative or
unparseable values fall back to the defaults (limit 50, offset 0), and the
response echoes the effective limit and offset. -/
theorem C9_pagination (limitStr offsetStr : String) (db : List Note) (u : String) :
    0 ≤ effectiveLimit limitStr ∧ effectiveLimit limitStr ≤ 200 ∧
    0 ≤ effectiveOffset offsetStr ∧
    (∀ v, atoi limitStr = some v → 200 < v → effectiveLimit limitStr = 200) ∧
    (∀ v, atoi limitStr = some v → v < 0 → effectiveLimit limitStr = 50) ∧
    (limitStr ≠ "" → atoi limitStr = none → effectiveLimit limitStr = 50) ∧
    (∀ v, atoi offsetStr = some v → v < 0 → effectiveOffset offsetStr = 0) ∧
    (offsetStr ≠ "" → atoi offsetStr = none → effectiveOffset offsetStr = 0) ∧
    (handleListNotes db u limitStr offsetStr).limit = effectiveLimit limitStr ∧
    (handleListNotes db u limitStr offsetStr).offset = effectiveOffset offsetStr := by
  have hempty : atoi "" = none := by decide
  have hl0 : 0 ≤ queryInt limitStr 50 := queryInt_nonneg limitStr 50 (by norm_num)
  refine ⟨?_, ?_, ?_, ?_, ?_, ?_, ?_, ?_, rfl, rfl⟩
  · unfold effectiveLimit
    by_cases h200 : 200 < queryInt limitStr 50
    · simp [h200]
    · simp [h200]
      omega
  · unfold effectiveLimit
    by_cases h200 : 200 < queryInt limitStr 50
    · simp [h200]
    · simp [h200]
      omega
  · exact queryInt_nonneg offsetStr 0 (by norm_num)
  · intro v hv h200
    have hne : limitStr ≠ "" := by
      intro h
      rw [h, hempty] at hv
      cases hv
    have hq : queryInt limitStr 50 = v := by
      unfold queryInt
      simp [hne, hv]
      intro hneg
      omega
    unfold effectiveLimit
    rw [hq, if_pos h200]
  · intro v hv hneg
    have hne : limitStr ≠ "" := by
      intro h
      rw [h, hempty] at hv
      cases hv
    have hq : queryInt limitStr 50 = 50 := by
      unfold queryInt
      simp [hne, hv, hneg]
    unfold effectiveLimit
    rw [hq]
    norm_num
  · intro hne hnone
    have hq : queryInt limitStr 50 = 50 := by
      unfold queryInt
      simp [hne, hnone]
    unfold effectiveLimit
    rw [hq]
    norm_num
  · intro v hv hneg
    have hne : offsetStr ≠ "" := by
      intro h
      rw [h, hempty] at hv
      cases hv
    unfold effectiveOffset queryInt
    simp [hne, hv, hneg]
  · intro hne hnone
    unfold effectiveOffset queryInt
    simp [hne, hnone]

/-- C9 counterexample: an explicit limit of 0 is effective (SELECT with
LIMIT 0 returns no rows), so the effective limit is not within 1..200. -/
theorem C9_counterexample :
    (handleListNotes [] "u1" "0" "").limit = 0 ∧
    ¬ (1 ≤ (handleListNotes [] "u1" "0" "").limit) := by decide

/-- C9 witness: an oversize limit is clamped to 200 and a negative offset
falls back to 0. -/
theorem C9_witness :
    effectiveLimit "500" = 200 ∧ effectiveOffset "-1" = 0 := by
  have h := C9_pagination "500" "-1" [] "u1"
  exact ⟨h.2.2.2.1 500 (by decide) (by decide),
         h.2.2.2.2.2.2.1 (-1) (by decide) (by decide)⟩

/-- A list is among the suffixes of s exactly when s splits around it. -/
theorem mem_suffixes {s t : List Char} : t ∈ suffixes s ↔ ∃ pre, s = pre ++ t := by
  induction s with
  | nil =>
    simp only [suffixes, List.mem_singleton]
    constructor
    · intro h
      exact ⟨[], by simp [h]⟩
    · rintro ⟨pre, hp⟩
      cases pre <;> simp_all
  | cons a s ih =>
    simp only [suffixes, List.mem_cons]
    constructor
    · rintro (h | h)
      · exact ⟨[], by simp [h]⟩
      · obtain ⟨pre, hp⟩ := ih.1 h
        exact ⟨a :: pre, by simp [hp]⟩
    · rintro ⟨pre, hp⟩
      cases pre with
      | nil =>
        left
        simpa using hp.symm
      | cons x pre' =>
        right
        apply ih.2
        simp only [List.cons_append, List.cons.injEq] at hp
        exact ⟨pre', hp.2⟩

/-- startsWithChars holds exactly when the second list extends the first. -/
theorem startsWithChars_iff : ∀ (q s : List Char),
    startsWithChars q s = true ↔ ∃ rest, s = q ++ rest := by
  intro q
  induction q with
  | nil =>
    intro s
    simp [startsWithChars]
  | cons a as ih =>
    intro s
    cases s with
    | nil =>
      simp [startsWithChars]
    | cons b bs =>
      simp only [startsWithChars, Bool.and_eq_true, beq_iff_eq]
      constructor
      · rintro ⟨hab, h⟩
        obtain ⟨rest, hr⟩ := (ih bs).1 h
        exact ⟨rest, by simp [hab, hr]⟩
      · rintro ⟨rest, hr⟩
        simp only [List.cons_append, List.cons.injEq] at hr
        exact ⟨hr.1.symm, (ih bs).2 ⟨rest, hr.2⟩⟩

/-- csSubstr holds exactly when the text splits around the query. -/
theorem csSubstr_iff : ∀ (q s : List Char),
    csSubstr q s = true ↔ ∃ a b, s = a ++ q ++ b := by
  intro q s
  induction s with
  | nil =>
    simp only [csSubstr, startsWithChars_iff]
    constructor
    · rintro ⟨rest, hr⟩
      exact ⟨[], rest, by simpa using hr⟩
    · rintro ⟨a, b, hab⟩
      cases a with
      | nil => exact ⟨b, by simpa using hab⟩
      | cons x a' => simp at hab
  | cons c s' ih =>
    simp only [csSubstr, Bool.or_eq_true, startsWithChars_iff, ih]
    constructor
    · rintro (⟨rest, hr⟩ | ⟨a, b, hab⟩)
      · exact ⟨[], rest, by simpa using hr⟩
      · exact ⟨c :: a, b, by simp [hab]⟩
    · rintro ⟨a, b, hab⟩
      cases a with
      | nil =>
        left
        exact ⟨b, by simpa using hab⟩
      | cons x a' =>
        right
        simp only [List.cons_append, List.append_assoc, List.cons.injEq] at hab
        exact ⟨a', b, by simp [hab.2]⟩

/-- Unfolding equation for a leading percent in the pattern. -/
theorem likeChars_percent_cons (ps s : List Char) :
    likeChars ('%' :: ps) s = (suffixes s).any (fun t => likeChars ps t) := by
  simp [likeChars]

/-- A wildcard-free pattern followed by a trailing percent matches exactly
the texts that begin with a case-folded copy of the pattern. -/
theorem likeChars_append_percent {q : List Char}
    (hq : ∀ c ∈ q, c ≠ '%' ∧ c ≠ '_') :
    ∀ s, likeChars (q ++ ['%']) s = true ↔
      ∃ s1 s2, s = s1 ++ s2 ∧ s1.map toLowerAscii = q.map toLowerAscii := by
  induction q with
  | nil =>
    intro s
    simp only [List.nil_append, List.map_nil]
    constructor
    · intro _
      exact ⟨[], s, rfl, rfl⟩
    · intro _
      show likeChars ('%' :: []) s = true
      rw [likeChars_percent_cons, List.any_eq_true]
      exact ⟨[], mem_suffixes.2 ⟨s, by simp⟩, rfl⟩
  | cons c q' ih =>
    have hc := hq c (List.mem_cons_self c q')
    have hq' : ∀ x ∈ q', x ≠ '%' ∧ x ≠ '_' :=
      fun x hx => hq x (List.mem_cons_of_mem c hx)
    have ih' := ih hq'
    intro s
    rw [List.cons_append]
    cases s with
    | nil =>
      simp only [likeChars, if_neg hc.1]
      constructor
      · intro h
        cases h
      · rintro ⟨s1, s2, hsplit, hmap⟩
        have hs1 : s1 = [] := by
          cases s1 with
          | nil => rfl
          | cons y ys => simp at hsplit
        rw [hs1] at hmap
        simp at hmap
    | cons b s' =>
      simp only [likeChars, if_neg hc.1, if_neg hc.2, Bool.and_eq_true, beq_iff_eq, ih']
      constructor
      · rintro ⟨hfold, s1', s2, hsplit, hmap⟩
        exact ⟨b :: s1', s2, by simp [hsplit], by simp [hmap, hfold.symm]⟩
      · rintro ⟨s1, s2, hsplit, hmap⟩
        cases s1 with
        | nil => simp at hmap
        | cons y s1' =>
          simp only [List.cons_append, List.cons.injEq] at hsplit
          simp only [List.map_cons, List.cons.injEq] at hmap
          refine ⟨?_, s1', s2, hsplit.2, hmap.2⟩
          rw [hsplit.1, hmap.1]

/-- The full LIKE pattern percent-q-percent matches exactly the texts whose
case-folded form contains the case-folded query as a contiguous segment. -/
theorem likeChars_pattern_iff {q : List Char}
    (hq : ∀ c ∈ q, c ≠ '%' ∧ c ≠ '_') (s : List Char) :
    likeChars ('%' :: (q ++ ['%'])) s = true ↔
      ∃ a b, s.map toLowerAscii = (a ++ q.map toLowerAscii) ++ b := by
  rw [likeChars_percent_cons, List.any_eq_true]
  constructor
  · rintro ⟨t, ht, hmatch⟩
    obtain ⟨pre, hp⟩ := mem_suffixes.1 ht
    obtain ⟨s1, s2, hsplit, hmap⟩ := (likeChars_append_percent hq t).1 hmatch
    refine ⟨pre.map toLowerAscii, s2.map toLowerAscii, ?_⟩
    rw [hp, hsplit]
    simp [hmap]
  · rintro ⟨a, b, hab⟩
    rw [List.append_assoc] at hab
    obtain ⟨l1, l23, hs, hm1, hm23⟩ := List.map_eq_append_iff.1 hab
    obtain ⟨l2, l3, hs23, hm2, hm3⟩ := List.map_eq_append_iff.1 hm23
    refine ⟨l23, mem_suffixes.2 ⟨l1, hs⟩, ?_⟩
    exact (likeChars_append_percent hq l23).2 ⟨l2, l3, hs23, hm2⟩

/-- For wildcard-free queries the code's LIKE test coincides with the
case-insensitive (ASCII) substring test. -/
theorem likeChars_eq_ciSubstr {q : List Char}
    (hq : ∀ c ∈ q, c ≠ '%' ∧ c ≠ '_') (s : List Char) :
    likeChars ('%' :: (q ++ ['%'])) s = ciSubstr q s := by
  rw [Bool.eq_iff_iff, likeChars_pattern_iff hq]
  unfold ciSubstr
  rw [csSubstr_iff]

/-- C6 (amended): for a wildcard-free query q, a note is in the search match
set iff it is the user's visible note and the ASCII-case-insensitive
substring test accepts q against its title or content (SQLite LIKE with the
default case folding, not the case-sensitive test of the spec); queries may
additionally contain percent or underscore characters which act as LIKE
wildcards, and the paginated result only ever returns rows of that match
set. -/
theorem C6_search_semantics (db : List Note) (u q : String) (n : Note)
    (hq : ∀ c ∈ q.data, c ≠ '%' ∧ c ≠ '_') :
    (n ∈ searchMatches db u q ↔
      n ∈ db ∧ n.userID = u ∧ n.deletedAt = none ∧
        (ciSubstr q.data n.title.data = true ∨
         ciSubstr q.data n.content.data = true)) ∧
    (∀ limit offset, n ∈ (searchNotes db u q limit offset).1 →
       n ∈ searchMatches db u q) := by
  constructor
  · unfold searchMatches
    rw [List.mem_filter]
    unfold noteMatchesSearch likePattern
    rw [likeChars_eq_ciSubstr hq, likeChars_eq_ciSubstr hq]
    simp [Bool.and_eq_true, Bool.or_eq_true, beq_iff_eq,
      Option.isNone_iff_eq_none, and_assoc]
  · intro limit offset hmem
    exact ((List.perm_insertionSort noteModDesc _).mem_iff).1
      (List.mem_of_mem_drop (List.mem_of_mem_take hmem))

/-- C6 counterexample: the search for abc returns the note titled ABC, yet
abc is not a case-sensitive substring of its title or content — the claim's
case-sensitive reading is false on the code. -/
theorem C6_counterexample :
    exNoteUpper ∈ (searchNotes [exNoteUpper] "u1" "abc" 50 0).1 ∧
    csSubstr "abc".data exNoteUpper.title.data = false ∧
    csSubstr "abc".data exNoteUpper.content.data = false := by decide

/-- C6 witness: the amended characterization evaluated on the concrete
upper-case note. -/
theorem C6_witness :
    exNoteUpper ∈ searchMatches [exNoteUpper] "u1" "abc" ↔
      exNoteUpper ∈ [exNoteUpper] ∧ exNoteUpper.userID = "u1" ∧
      exNoteUpper.deletedAt = none ∧
      (ciSubstr "abc".data exNoteUpper.title.data = true ∨
       ciSubstr "abc".data exNoteUpper.content.data = true) :=
  (C6_search_semantics [exNoteUpper] "u1" "abc" exNoteUpper (by decide)).1

end Notesd
